import Mathlib

/-!
Verification of the errata generation pipeline and agent runtime.

Each section shallowly embeds one server module as executable Lean
definitions translated from the TypeScript source, and proves the
corresponding specification claims about them.
-/

namespace Errata

/-!
Section G: Event-Stream Adapter, from `src/server/agents/create-event-stream.ts`.

The adapter consumes a finite sequence of model parts (we model the
successfully-completed async iteration as a `List`; the upstream-error
path rejects the completion and is outside the claims proved here) and
produces the NDJSON event lines together with the resolved completion.
JSON object payloads (tool arguments and results) are modelled as opaque
serialized strings.
-/

/-- Serialized form of the empty JSON object `\x7b\x7d` used for `args` at
tool-result time. -/
def emptyArgs : String := "\x7b\x7d"

/-- Model parts of the upstream full stream. Optional fields mirror the
`?? `-defaulted reads in the source (`p.text ?? ''`, `p.input ?? {}`,
`(p.toolName as string) ?? ''`, `(p.finishReason as string) ?? 'unknown'`). -/
inductive StreamPart where
  | textDelta (text : Option String)
  | reasoningDelta (text : Option String)
  | toolCall (id toolName : String) (input : Option String)
  | toolResult (id : String) (toolName : Option String) (output : String)
  | finish (finishReason : Option String)
  | other
deriving DecidableEq, Repr

/-- Entry appended to `toolCalls` on a tool-result part. -/
structure ToolCallRecord where
  toolName : String
  args : String
  result : String
deriving DecidableEq, Repr

/-- NDJSON event lines emitted by the adapter. -/
inductive StreamEvent where
  | text (text : String)
  | reasoning (text : String)
  | toolCall (id toolName args : String)
  | toolResult (id toolName result : String)
  | finish (finishReason : String) (stepCount : Nat)
deriving DecidableEq, Repr

/-- Mutable accumulator of `createEventStream` (`fullText`, `fullReasoning`,
`toolCalls`, `lastFinishReason`, `stepCount`). -/
structure StreamAccum where
  fullText : String
  fullReasoning : String
  toolCalls : List ToolCallRecord
  lastFinishReason : String
  stepCount : Nat
deriving DecidableEq, Repr

def initAccum : StreamAccum :=
  { fullText := "", fullReasoning := "", toolCalls := [], lastFinishReason := "unknown", stepCount := 0 }

/-- One iteration of the `for await` switch: updates the accumulator and
possibly emits one event line. -/
def stepPart (acc : StreamAccum) (p : StreamPart) : StreamAccum × Option StreamEvent :=
  match p with
  | .textDelta t =>
      let text := t.getD ""
      ({ acc with fullText := acc.fullText ++ text }, some (.text text))
  | .reasoningDelta t =>
      let text := t.getD ""
      ({ acc with fullReasoning := acc.fullReasoning ++ text }, some (.reasoning text))
  | .toolCall id name input =>
      (acc, some (.toolCall id name (input.getD emptyArgs)))
  | .toolResult id name output =>
      let toolName := name.getD ""
      ({ acc with toolCalls := acc.toolCalls ++ [{ toolName := toolName, args := emptyArgs, result := output }] },
        some (.toolResult id toolName output))
  | .finish reason =>
      ({ acc with lastFinishReason := reason.getD "unknown", stepCount := acc.stepCount + 1 }, none)
  | .other => (acc, none)

/-- Folds the part loop, collecting emitted events in order. -/
def runParts (acc : StreamAccum) : List StreamPart → StreamAccum × List StreamEvent
  | [] => (acc, [])
  | p :: rest =>
      let s := stepPart acc p
      let r := runParts s.1 rest
      (r.1, (match s.2 with | some e => [e] | none => []) ++ r.2)

/-- Value the completion promise resolves with. -/
structure StreamCompletion where
  text : String
  reasoning : String
  toolCalls : List ToolCallRecord
  stepCount : Nat
  finishReason : String
deriving DecidableEq, Repr

/-- Full adapter: the emitted NDJSON lines (including the final synthetic
finish event) and the resolved completion. -/
def createEventStream (parts : List StreamPart) : List StreamEvent × StreamCompletion :=
  let r := runParts initAccum parts
  (r.2 ++ [.finish r.1.lastFinishReason r.1.stepCount],
    { text := r.1.fullText, reasoning := r.1.fullReasoning, toolCalls := r.1.toolCalls,
      stepCount := r.1.stepCount, finishReason := r.1.lastFinishReason })

def StreamPart.isFinish : StreamPart → Bool
  | .finish _ => true
  | _ => false

def StreamEvent.isFinish : StreamEvent → Bool
  | .finish _ _ => true
  | _ => false

/-- Spec-side: text contributed by one part (text-delta parts contribute
their text with the source's `?? ''` default, every other part nothing). -/
def partText : StreamPart → String
  | .textDelta t => t.getD ""
  | _ => ""

/-- Spec-side: concatenation of all text-delta texts in input order. -/
def specText : List StreamPart → String
  | [] => ""
  | p :: rest => partText p ++ specText rest

/-- Spec-side: the last finish part of the input, if any. -/
def lastFinishPart : List StreamPart → Option StreamPart
  | [] => none
  | p :: rest =>
      match lastFinishPart rest with
      | some q => some q
      | none => if p.isFinish then some p else none

theorem lastFinishPart_shape (parts : List StreamPart) :
    ∀ q : StreamPart, lastFinishPart parts = some q → ∃ r, q = StreamPart.finish r := by
  induction parts with
  | nil => intro q h; simp [lastFinishPart] at h
  | cons p rest ih =>
      intro q h
      simp only [lastFinishPart] at h
      rcases hrest : lastFinishPart rest with _ | q'
      · rw [hrest] at h
        rcases p with _ | _ | _ | _ | r | _ <;> simp [StreamPart.isFinish] at h
        exact ⟨r, h.symm⟩
      · rw [hrest] at h
        simp only [Option.some.injEq] at h
        exact h ▸ ih q' hrest

theorem runParts_fullText (parts : List StreamPart) : ∀ acc : StreamAccum,
    (runParts acc parts).1.fullText = acc.fullText ++ specText parts := by
  induction parts with
  | nil => intro acc; simp [runParts, specText]
  | cons p rest ih =>
      intro acc
      cases p <;>
        simp [runParts, stepPart, specText, ih, partText, String.append_assoc]

theorem runParts_stepCount (parts : List StreamPart) : ∀ acc : StreamAccum,
    (runParts acc parts).1.stepCount
      = acc.stepCount + (parts.filter StreamPart.isFinish).length := by
  induction parts with
  | nil => intro acc; simp [runParts]
  | cons p rest ih =>
      intro acc
      cases p <;> simp [runParts, stepPart, ih, List.filter_cons, StreamPart.isFinish] <;> omega

theorem runParts_reason (parts : List StreamPart) : ∀ acc : StreamAccum,
    (runParts acc parts).1.lastFinishReason
      = match lastFinishPart parts with
        | some (.finish r) => r.getD "unknown"
        | _ => acc.lastFinishReason := by
  induction parts with
  | nil => intro acc; simp [runParts, lastFinishPart]
  | cons p rest ih =>
      intro acc
      rcases hrest : lastFinishPart rest with _ | q
      · cases p <;>
          simp [runParts, stepPart, lastFinishPart, hrest, ih, StreamPart.isFinish]
      · obtain ⟨r, rfl⟩ := lastFinishPart_shape rest q hrest
        cases p <;> simp [runParts, stepPart, lastFinishPart, hrest, ih]

theorem runParts_no_finish_event (parts : List StreamPart) : ∀ acc : StreamAccum,
    ∀ e ∈ (runParts acc parts).2, e.isFinish = false := by
  induction parts with
  | nil => intro acc e he; simp [runParts] at he
  | cons p rest ih =>
      intro acc e he
      cases p <;>
        simp only [runParts, stepPart, List.cons_append, List.nil_append, List.mem_cons,
          List.singleton_append] at he <;>
        first
        | (rcases he with rfl | he
           · rfl
           · exact ih _ e he)
        | exact ih _ e he

/-- C1: for every input part-stream that ends without an upstream error (a
finite part list, here one whose last finish part carries reason `r`), the
NDJSON output of `createEventStream` contains exactly one finish event and it
is the last line, and the completion resolves with `text` the concatenation
of all text-delta texts in order, `stepCount` the number of input finish
parts, and `finishReason` the reason of the last finish part. -/
theorem createEventStream_finish_contract (parts : List StreamPart) (r : String)
    (h : lastFinishPart parts = some (StreamPart.finish (some r))) :
    (((createEventStream parts).1.filter StreamEvent.isFinish).length = 1) ∧
    ((createEventStream parts).1.getLast? =
      some (.finish ((createEventStream parts).2.finishReason) ((createEventStream parts).2.stepCount))) ∧
    ((createEventStream parts).2.text = specText parts) ∧
    ((createEventStream parts).2.stepCount = (parts.filter StreamPart.isFinish).length) ∧
    ((createEventStream parts).2.finishReason = r) := by
  have hreason := runParts_reason parts initAccum
  rw [h] at hreason
  have htext := runParts_fullText parts initAccum
  have hstep := runParts_stepCount parts initAccum
  have hnof := runParts_no_finish_event parts initAccum
  refine ⟨?_, ?_, ?_, ?_, ?_⟩
  · have hnil : (runParts initAccum parts).2.filter StreamEvent.isFinish = [] :=
      List.filter_eq_nil_iff.mpr (fun e he => by simp [hnof e he])
    simp [createEventStream, List.filter_append, hnil, StreamEvent.isFinish]
  · simp [createEventStream, List.getLast?_concat]
  · simpa [createEventStream, initAccum] using htext
  · simpa [createEventStream, initAccum] using hstep
  · simpa [createEventStream, initAccum] using hreason

/-- Witness for C1 at a concrete part stream. -/
theorem createEventStream_finish_contract_example :
    lastFinishPart [StreamPart.textDelta (some "he"),
        StreamPart.textDelta (some "llo"), StreamPart.finish (some "stop")]
      = some (StreamPart.finish (some "stop")) ∧
    ((createEventStream [StreamPart.textDelta (some "he"),
        StreamPart.textDelta (some "llo"), StreamPart.finish (some "stop")]).2.text = specText
          [StreamPart.textDelta (some "he"), StreamPart.textDelta (some "llo"),
            StreamPart.finish (some "stop")]) ∧
    ((createEventStream [StreamPart.textDelta (some "he"),
        StreamPart.textDelta (some "llo"), StreamPart.finish (some "stop")]).2.finishReason = "stop") :=
  ⟨by decide,
    (createEventStream_finish_contract _ "stop" (by decide)).2.2.1,
    (createEventStream_finish_contract _ "stop" (by decide)).2.2.2.2⟩

/-!
Section A: Fragment Store, from `src/server/fragments/storage.ts`.

Fragments are modelled post-normalization (`normalizeFragment` guarantees
`archived`, `version` and `versions` are present, which the typed model
encodes directly). The on-disk story directory is modelled as an
association list from fragment id to fragment; timestamps are passed in
explicitly in place of `new Date().toISOString()`.
-/

inductive Placement where
  | system
  | user
deriving DecidableEq, Repr

/-- Snapshot appended to `versions`, from `makeVersionSnapshot`. -/
structure FragmentVersion where
  version : Nat
  name : String
  description : String
  content : String
  createdAt : String
  reason : Option String
deriving DecidableEq, Repr

structure Fragment where
  id : String
  type : String
  name : String
  description : String
  content : String
  sticky : Bool
  placement : Placement
  archived : Bool
  order : Int
  tags : List String
  meta : List (String × String)
  createdAt : String
  updatedAt : String
  version : Nat
  versions : List FragmentVersion
deriving DecidableEq, Repr

/-- Snapshot of the fragment's current (about-to-be-previous) state. -/
def makeVersionSnapshot (fragment : Fragment) (reason : Option String) (now : String) :
    FragmentVersion :=
  { version := fragment.version
    name := fragment.name
    description := fragment.description
    content := fragment.content
    createdAt := now
    reason := reason }

abbrev FragmentStore := List (String × Fragment)

def getFragment (store : FragmentStore) (fragmentId : String) : Option Fragment :=
  (store.find? (fun kv => kv.1 == fragmentId)).map (fun kv => kv.2)

/-- Overwrites the stored record under the fragment's id. -/
def updateFragment (store : FragmentStore) (fragment : Fragment) : FragmentStore :=
  store.map (fun kv => if kv.1 == fragment.id then (kv.1, fragment) else kv)

/-- Partial update of `name`/`description`/`content`, from
`updateFragmentVersioned`. -/
structure FragmentUpdates where
  name : Option String
  description : Option String
  content : Option String
deriving DecidableEq, Repr

/-- Does applying `updates` change name, description or content? -/
def hasVersionedChange (existing : Fragment) (updates : FragmentUpdates) : Bool :=
  updates.name.getD existing.name != existing.name ||
  updates.description.getD existing.description != existing.description ||
  updates.content.getD existing.content != existing.content

/-- Applies a versioned update to an existing fragment: on a real change the
version is bumped and a snapshot of the previous state appended. -/
def applyVersionedUpdate (existing : Fragment) (updates : FragmentUpdates)
    (reason : Option String) (now : String) : Fragment :=
  let nextName := updates.name.getD existing.name
  let nextDescription := updates.description.getD existing.description
  let nextContent := updates.content.getD existing.content
  if hasVersionedChange existing updates then
    { existing with
        name := nextName
        description := nextDescription
        content := nextContent
        updatedAt := now
        version := existing.version + 1
        versions := existing.versions ++ [makeVersionSnapshot existing reason now] }
  else
    { existing with
        name := nextName
        description := nextDescription
        content := nextContent
        updatedAt := now }

/-- Store-level `updateFragmentVersioned`: returns the updated fragment (or
`none` when absent, mirroring the `null` return) and the new store. -/
def updateFragmentVersioned (store : FragmentStore) (fragmentId : String)
    (updates : FragmentUpdates) (reason : Option String) (now : String) :
    Option Fragment × FragmentStore :=
  match getFragment store fragmentId with
  | none => (none, store)
  | some existing =>
      let updated := applyVersionedUpdate existing updates reason now
      (some updated, updateFragment store updated)

/-- A store is well formed when each record is filed under its own id. -/
def StoreWF (store : FragmentStore) : Prop :=
  ∀ kv ∈ store, (kv.2).id = kv.1

theorem getFragment_id (store : FragmentStore) (fragmentId : String) (f : Fragment)
    (hwf : StoreWF store) (h : getFragment store fragmentId = some f) : f.id = fragmentId := by
  unfold getFragment at h
  rcases hfind : store.find? (fun kv => kv.1 == fragmentId) with _ | kv
  · rw [hfind] at h
    simp at h
  · rw [hfind] at h
    simp at h
    have hmem := List.mem_of_find?_eq_some hfind
    have hkey := List.find?_some hfind
    rw [← h, hwf kv hmem]
    exact eq_of_beq hkey

theorem getFragment_updateFragment_self (f : Fragment) :
    ∀ store : FragmentStore, (∃ g, getFragment store f.id = some g) →
      getFragment (updateFragment store f) f.id = some f := by
  intro store
  induction store with
  | nil =>
      intro h
      obtain ⟨g, hg⟩ := h
      simp [getFragment] at hg
  | cons kv rest ih =>
      intro h
      by_cases hk : (kv.1 == f.id) = true
      · simp only [updateFragment, List.map_cons, getFragment]
        rw [if_pos hk, List.find?_cons_of_pos _ (by simpa using hk)]
        simp
      · obtain ⟨g, hg⟩ := h
        have hg' : getFragment rest f.id = some g := by
          simp only [getFragment] at hg ⊢
          rwa [List.find?_cons_of_neg _ (by simpa using hk)] at hg
        have := ih ⟨g, hg'⟩
        simp only [getFragment, updateFragment] at this ⊢
        simp only [List.map_cons]
        rw [if_neg (by simpa using hk), List.find?_cons_of_neg _ (by simpa using hk)]
        exact this

/-- C2: a versioned update that changes at least one of name, description or
content bumps the stored fragment's version by exactly 1 and appends exactly
one entry to `versions`, that entry being a snapshot of the previous name,
description, content and version. -/
theorem updateFragmentVersioned_bumps (store : FragmentStore) (fragmentId : String)
    (updates : FragmentUpdates) (reason : Option String) (now : String) (existing : Fragment)
    (hwf : StoreWF store)
    (hget : getFragment store fragmentId = some existing)
    (hchange : hasVersionedChange existing updates = true) :
    ∃ updated : Fragment,
      (updateFragmentVersioned store fragmentId updates reason now).1 = some updated ∧
      getFragment (updateFragmentVersioned store fragmentId updates reason now).2 fragmentId
        = some updated ∧
      updated.version = existing.version + 1 ∧
      updated.versions = existing.versions ++ [makeVersionSnapshot existing reason now] ∧
      updated.versions.length = existing.versions.length + 1 ∧
      (makeVersionSnapshot existing reason now).name = existing.name ∧
      (makeVersionSnapshot existing reason now).description = existing.description ∧
      (makeVersionSnapshot existing reason now).content = existing.content ∧
      (makeVersionSnapshot existing reason now).version = existing.version := by
  have hid : existing.id = fragmentId := getFragment_id store fragmentId existing hwf hget
  refine ⟨applyVersionedUpdate existing updates reason now, ?_, ?_, ?_, ?_, ?_, rfl, rfl, rfl, rfl⟩
  · simp [updateFragmentVersioned, hget]
  · have hidu : (applyVersionedUpdate existing updates reason now).id = fragmentId := by
      unfold applyVersionedUpdate
      by_cases h : hasVersionedChange existing updates <;> simp [h, hid]
    simp only [updateFragmentVersioned, hget]
    rw [← hidu]
    exact getFragment_updateFragment_self _ store ⟨existing, by rw [hidu]; exact hget⟩
  · simp [applyVersionedUpdate, hchange]
  · simp [applyVersionedUpdate, hchange]
  · simp [applyVersionedUpdate, hchange]

/-- Concrete character fragment used to instantiate the C2 theorem. -/
def exampleFragment : Fragment :=
  { id := "ch-ab12"
    type := "character"
    name := "A"
    description := "d"
    content := "c"
    sticky := false
    placement := .user
    archived := false
    order := 0
    tags := []
    meta := []
    createdAt := "t0"
    updatedAt := "t0"
    version := 1
    versions := [] }

def exampleStore : FragmentStore := [("ch-ab12", exampleFragment)]

def exampleUpdates : FragmentUpdates :=
  { name := none, description := none, content := some "c2" }

/-- Witness for C2: updating the content of a concrete stored fragment. -/
theorem updateFragmentVersioned_bumps_example :
    ∃ updated : Fragment,
      (updateFragmentVersioned exampleStore "ch-ab12" exampleUpdates none "t1").1
        = some updated ∧
      getFragment (updateFragmentVersioned exampleStore "ch-ab12" exampleUpdates none "t1").2
        "ch-ab12" = some updated ∧
      updated.version = exampleFragment.version + 1 ∧
      updated.versions
        = exampleFragment.versions ++ [makeVersionSnapshot exampleFragment none "t1"] ∧
      updated.versions.length = exampleFragment.versions.length + 1 ∧
      (makeVersionSnapshot exampleFragment none "t1").name = exampleFragment.name ∧
      (makeVersionSnapshot exampleFragment none "t1").description
        = exampleFragment.description ∧
      (makeVersionSnapshot exampleFragment none "t1").content = exampleFragment.content ∧
      (makeVersionSnapshot exampleFragment none "t1").version = exampleFragment.version :=
  updateFragmentVersioned_bumps exampleStore "ch-ab12" exampleUpdates none "t1" exampleFragment
    (by intro kv hkv; simp [exampleStore] at hkv; simp [hkv, exampleFragment])
    (by decide) (by decide)

/-!
Section C: Block Engine, from `src/server/blocks/apply.ts` and
`src/server/blocks/schema.ts`.

Script bodies are arbitrary JavaScript run through `AsyncFunction`; the
embedding abstracts the JavaScript engine as an evaluation oracle mapping a
custom block definition to the outcome of running its body (a string
result, a non-string result, or a thrown error message). Everything the
adapter itself does with that outcome is translated from the source.
-/

inductive Role where
  | system
  | user
deriving DecidableEq, Repr

inductive BlockSource where
  | builtin
  | custom
deriving DecidableEq, Repr

structure ContextBlock where
  id : String
  role : Role
  content : String
  order : Int
  source : BlockSource
  name : Option String
deriving DecidableEq, Repr

inductive BlockType where
  | simple
  | script
deriving DecidableEq, Repr

inductive ContentMode where
  | override
  | prepend
  | append
deriving DecidableEq, Repr

structure CustomBlockDefinition where
  id : String
  name : String
  role : Role
  order : Int
  enabled : Bool
  type : BlockType
  content : String
deriving DecidableEq, Repr

/-- Per-block override; `contentMode := none` models both an absent and an
explicit `null` content mode (both falsy in the source's guard). -/
structure BlockOverride where
  enabled : Option Bool
  order : Option Int
  contentMode : Option ContentMode
  customContent : Option String
deriving DecidableEq, Repr

structure BlockConfig where
  customBlocks : List CustomBlockDefinition
  overrides : List (String × BlockOverride)
  blockOrder : List String
deriving DecidableEq, Repr

/-- Outcome of running a script block body through the JavaScript engine. -/
inductive ScriptOutcome where
  | retString (s : String)
  | retNonString
  | throws (msg : String)
deriving DecidableEq, Repr

/-- Evaluation oracle standing in for `new AsyncFunction('ctx', content)`. -/
abbrev ScriptEval := CustomBlockDefinition → ScriptOutcome

/-- Text of the in-band error block produced when a script body throws. -/
def scriptErrorText (name msg : String) : String :=
  "[Script error in \"" ++ name ++ "\": " ++ msg ++ "]"

/-- Evaluates a custom block definition into a context block, from
`evaluateCustomBlock`: simple blocks use content as-is; a script returning a
non-string or an empty (after trim) string yields `none` (the block is
dropped); a throwing script yields a visible error block. -/
def evaluateCustomBlock (ev : ScriptEval) (d : CustomBlockDefinition) : Option ContextBlock :=
  match d.type with
  | .simple =>
      some { id := d.id, name := some d.name, role := d.role, content := d.content,
             order := d.order, source := .custom }
  | .script =>
      match ev d with
      | .retString s =>
          if s.trim = "" then none
          else
            some { id := d.id, name := some d.name, role := d.role, content := s,
                   order := d.order, source := .custom }
      | .retNonString => none
      | .throws msg =>
          some { id := d.id, name := some d.name, role := d.role,
                 content := scriptErrorText d.name msg, order := d.order, source := .custom }

def lookupOverride (overrides : List (String × BlockOverride)) (id : String) :
    Option BlockOverride :=
  (overrides.find? (fun kv => kv.1 == id)).map (fun kv => kv.2)

/-- Step 2 of `applyBlockConfig`: apply the override's content mode to one
block. Nothing happens when `contentMode` is falsy or `customContent` is
absent or the empty string. -/
def contentModeStep (overrides : List (String × BlockOverride)) (block : ContextBlock) :
    ContextBlock :=
  match lookupOverride overrides block.id with
  | none => block
  | some ov =>
      match ov.contentMode with
      | none => block
      | some mode =>
          match ov.customContent with
          | none => block
          | some cc =>
              if cc = "" then block
              else
                match mode with
                | .override => { block with content := cc }
                | .prepend => { block with content := cc ++ "\n" ++ block.content }
                | .append => { block with content := block.content ++ "\n" ++ cc }

/-- Last index of `id` in `blockOrder`; `new Map(blockOrder.map((id, i) =>
[id, i]))` keeps the last position on duplicate keys. -/
def lastIndexOfFrom (ids : List String) (id : String) (start : Nat) : Option Nat :=
  match ids with
  | [] => none
  | x :: rest =>
      match lastIndexOfFrom rest id (start + 1) with
      | some j => some j
      | none => if x == id then some start else none

/-- Step 3 of `applyBlockConfig`: position-based `blockOrder` ordering. -/
def blockOrderStep (blockOrder : List String) (block : ContextBlock) : ContextBlock :=
  match lastIndexOfFrom blockOrder block.id 0 with
  | some i => { block with order := (i : Int) }
  | none => block

/-- Step 4 of `applyBlockConfig`: per-id order overrides. -/
def orderOverrideStep (overrides : List (String × BlockOverride)) (block : ContextBlock) :
    ContextBlock :=
  match lookupOverride overrides block.id with
  | some ov =>
      match ov.order with
      | some o => { block with order := o }
      | none => block
  | none => block

/-- Step 5 of `applyBlockConfig`: a block whose override sets
`enabled = false` is removed. -/
def enabledFilter (overrides : List (String × BlockOverride)) (block : ContextBlock) : Bool :=
  match lookupOverride overrides block.id with
  | some ov => !(ov.enabled == some false)
  | none => true

/-- Step 1 of `applyBlockConfig`: evaluate and collect the enabled custom
blocks (skipping ones an override disables). -/
def customBlocksStep (config : BlockConfig) (ev : ScriptEval) : List ContextBlock :=
  config.customBlocks.filterMap fun d =>
    if !d.enabled then none
    else
      match lookupOverride config.overrides d.id with
      | some ov => if ov.enabled == some false then none else evaluateCustomBlock ev d
      | none => evaluateCustomBlock ev d

/-- Applies block configuration to the default blocks, from
`applyBlockConfig`: insert evaluated custom blocks, apply content overrides,
`blockOrder` positions, per-id order overrides, then drop disabled blocks. -/
def applyBlockConfig (blocks : List ContextBlock) (config : BlockConfig) (ev : ScriptEval) :
    List ContextBlock :=
  let result1 := blocks ++ customBlocksStep config ev
  let result2 := result1.map (contentModeStep config.overrides)
  let result3 :=
    if config.blockOrder.length > 0 then result2.map (blockOrderStep config.blockOrder)
    else result2
  let result4 := result3.map (orderOverrideStep config.overrides)
  result4.filter (enabledFilter config.overrides)

/-- C3 counterexample: a script block whose body returns a non-string value
is dropped (`evaluateCustomBlock` returns `none`); the claim instead predicts
an error block for this input. -/
theorem evaluateCustomBlock_nonstring_dropped :
    evaluateCustomBlock (fun _ => ScriptOutcome.retNonString)
      { id := "cb-0001", name := "n", role := .user, order := 0, enabled := true,
        type := .script, content := "return 42" } = none := by
  decide

/-- C3 (amended): for a script block, a non-empty string result becomes the
block's content with the definition's role and order; an empty-after-trim
string result and a non-string result both drop the block; a thrown error
produces the error block `[Script error in "<name>": <msg>]` with the same
role and order. -/
theorem evaluateCustomBlock_script_cases (ev : ScriptEval) (d : CustomBlockDefinition)
    (hscript : d.type = .script) :
    (∀ s, ev d = .retString s → s.trim ≠ "" →
      evaluateCustomBlock ev d
        = some { id := d.id, name := some d.name, role := d.role, content := s,
                 order := d.order, source := .custom }) ∧
    (∀ s, ev d = .retString s → s.trim = "" → evaluateCustomBlock ev d = none) ∧
    (ev d = .retNonString → evaluateCustomBlock ev d = none) ∧
    (∀ msg, ev d = .throws msg →
      evaluateCustomBlock ev d
        = some { id := d.id, name := some d.name, role := d.role,
                 content := scriptErrorText d.name msg, order := d.order,
                 source := .custom }) := by
  refine ⟨?_, ?_, ?_, ?_⟩
  · intro s hev hne
    simp [evaluateCustomBlock, hscript, hev, hne]
  · intro s hev he
    simp [evaluateCustomBlock, hscript, hev, he]
  · intro hev
    simp [evaluateCustomBlock, hscript, hev]
  · intro msg hev
    simp [evaluateCustomBlock, hscript, hev]

/-- Script block definition used in the C3 witness. -/
def exampleScriptBlock : CustomBlockDefinition :=
  { id := "cb-0002", name := "my block", role := .user, order := 3, enabled := true,
    type := .script, content := "throw new Error('boom')" }

/-- Witness for C3 (amended) at a throwing script body. -/
theorem evaluateCustomBlock_script_cases_example :
    evaluateCustomBlock (fun _ => ScriptOutcome.throws "boom") exampleScriptBlock
      = some { id := "cb-0002", name := some "my block", role := .user,
               content := "[Script error in \"my block\": boom]", order := 3,
               source := .custom } :=
  (evaluateCustomBlock_script_cases (fun _ => ScriptOutcome.throws "boom")
    exampleScriptBlock rfl).2.2.2 "boom" rfl

/-- C10: in `applyBlockConfig`, the content-mode step leaves a block
untouched whenever its override's `customContent` is absent or empty, even
if `contentMode` is set; in particular `contentMode = override` with empty
`customContent` does not blank the block. -/
theorem contentModeStep_empty_custom (overrides : List (String × BlockOverride))
    (block : ContextBlock) (ov : BlockOverride)
    (hov : lookupOverride overrides block.id = some ov)
    (hmode : ov.contentMode.isSome = true)
    (hempty : ov.customContent = none ∨ ov.customContent = some "") :
    contentModeStep overrides block = block := by
  obtain ⟨mode, hm⟩ := Option.isSome_iff_exists.mp hmode
  rcases hempty with he | he <;>
    simp [contentModeStep, hov, hm, he]

/-- Witness for C10: an `override` mode with empty custom content leaves a
concrete block unchanged. -/
theorem contentModeStep_empty_custom_example :
    contentModeStep
      [("b1", { enabled := none, order := none, contentMode := some .override,
                customContent := some "" })]
      { id := "b1", role := .system, content := "keep me", order := 0,
        source := .builtin, name := none } =
      { id := "b1", role := .system, content := "keep me", order := 0,
        source := .builtin, name := none } :=
  contentModeStep_empty_custom _ _
    { enabled := none, order := none, contentMode := some .override, customContent := some "" }
    (by decide) (by decide) (Or.inr rfl)

/-!
Section F: Agent Registry and Runner, from `src/server/agents/runner.ts`
and `src/server/agents/registry.ts`.

Agent `run` bodies are polymorphic JavaScript; the embedding restricts them
to the behaviour the claims exercise: a body is a program that invokes
other agents through the nested `invokeAgent` capability (which reuses the
same runtime, as in the source), then returns or throws. Run ids are a
deterministic counter standing in for `makeRunId`; wall-clock fields of
trace entries are dropped. The runtime state is instrumented with
`runsEntered`, recording each run body actually entered, so that "run is
never called" is expressible. A fuel argument bounds the recursion; fuel
exhaustion is reported like a thrown error and never occurs in the
concrete scenarios proved below.
-/

/-- Restricted agent run body: invoke a sequence of agents, then return or
throw. -/
inductive Prog where
  | ret
  | fail (msg : String)
  | call (agentName : String) (next : Prog)
deriving DecidableEq, Repr

structure AgentDefinition where
  name : String
  allowedCalls : Option (List String)
  run : Prog
deriving DecidableEq, Repr

structure AgentCallOptions where
  maxDepth : Nat
  maxCalls : Nat
deriving DecidableEq, Repr

def defaultCallOptions : AgentCallOptions := { maxDepth := 3, maxCalls := 20 }

inductive TraceStatus where
  | success
  | error
deriving DecidableEq, Repr

structure AgentTraceEntry where
  runId : Nat
  parentRunId : Option Nat
  agentName : String
  status : TraceStatus
  error : Option String
deriving DecidableEq, Repr

structure RuntimeState where
  trace : List AgentTraceEntry
  stack : List String
  callCount : Nat
  nextRunId : Nat
  runsEntered : List String
deriving DecidableEq, Repr

def initRuntimeState : RuntimeState :=
  { trace := [], stack := [], callCount := 0, nextRunId := 0, runsEntered := [] }

def findAgent (registry : List AgentDefinition) (name : String) : Option AgentDefinition :=
  registry.find? (fun d => d.name == name)

def notRegisteredMsg (name : String) : String := "Agent not registered: " ++ name
def callLimitMsg (maxCalls : Nat) : String :=
  "Agent call limit exceeded (" ++ toString maxCalls ++ ")"
def depthMsg (maxDepth : Nat) : String :=
  "Agent call depth exceeded (" ++ toString maxDepth ++ ")"
def cycleMsg (stack : List String) (name : String) : String :=
  "Agent cycle detected: " ++ String.intercalate " -> " (stack ++ [name])
def allowedCallsMsg (parent name : String) : String :=
  "Agent " ++ parent ++ " cannot call " ++ name

/-- Work item of the runner: an invocation of a named agent, or the
continuation of a run body. -/
inductive RunnerCall where
  | inv (agentName : String) (parentRunId : Option Nat) (depth : Nat)
  | prog (p : Prog) (selfRunId : Nat) (depth : Nat)
deriving DecidableEq, Repr

/-- Single-step interpreter for `invokeInternal` and run bodies, structural
in the fuel. The `.inv` case mirrors the source order: registry lookup, call
limit, depth, cycle and parent `allowedCalls` checks (all before any state
change), then the counter and stack updates, the run body, the trace entry
push in the success and catch paths, and the `finally` stack pop. -/
def exec (registry : List AgentDefinition) (opts : AgentCallOptions) :
    Nat → RunnerCall → RuntimeState → Except String Unit × RuntimeState
  | 0, _, st => (.error "out of fuel", st)
  | fuel + 1, .inv agentName parentRunId depth, st =>
      match findAgent registry agentName with
      | none => (.error (notRegisteredMsg agentName), st)
      | some d =>
          if st.callCount ≥ opts.maxCalls then (.error (callLimitMsg opts.maxCalls), st)
          else if depth > opts.maxDepth then (.error (depthMsg opts.maxDepth), st)
          else if agentName ∈ st.stack then (.error (cycleMsg st.stack agentName), st)
          else
            let parentViolation : Option String :=
              match st.stack.getLast? with
              | some parentName =>
                  match findAgent registry parentName with
                  | some pd =>
                      match pd.allowedCalls with
                      | some allowed =>
                          if agentName ∈ allowed then none
                          else some (allowedCallsMsg parentName agentName)
                      | none => none
                  | none => none
              | none => none
            match parentViolation with
            | some msg => (.error msg, st)
            | none =>
                let runId := st.nextRunId
                let st1 : RuntimeState :=
                  { st with
                      callCount := st.callCount + 1
                      stack := st.stack ++ [agentName]
                      nextRunId := st.nextRunId + 1
                      runsEntered := st.runsEntered ++ [agentName] }
                match exec registry opts fuel (.prog d.run runId depth) st1 with
                | (.ok _, st2) =>
                    let st3 : RuntimeState :=
                      { st2 with
                          trace := st2.trace ++
                            [{ runId := runId, parentRunId := parentRunId,
                               agentName := agentName, status := .success, error := none }] }
                    (.ok (), { st3 with stack := st3.stack.dropLast })
                | (.error e, st2) =>
                    let st3 : RuntimeState :=
                      { st2 with
                          trace := st2.trace ++
                            [{ runId := runId, parentRunId := parentRunId,
                               agentName := agentName, status := .error, error := some e }] }
                    (.error e, { st3 with stack := st3.stack.dropLast })
  | fuel + 1, .prog p selfRunId depth, st =>
      match p with
      | .ret => (.ok (), st)
      | .fail msg => (.error msg, st)
      | .call name next =>
          match exec registry opts fuel (.inv name (some selfRunId) (depth + 1)) st with
          | (.ok _, st') => exec registry opts fuel (.prog next selfRunId depth) st'
          | (.error e, st') => (.error e, st')

/-- One internal invocation, from `invokeInternal`. -/
def invokeInternal (registry : List AgentDefinition) (opts : AgentCallOptions) (fuel : Nat)
    (agentName : String) (parentRunId : Option Nat) (depth : Nat) (st : RuntimeState) :
    Except String Unit × RuntimeState :=
  exec registry opts fuel (.inv agentName parentRunId depth) st

structure AgentRunOutcome where
  result : Except String Unit
  trace : List AgentTraceEntry
  runsEntered : List String
deriving Repr

/-- Top-level `invokeAgent` with default options and a fresh runtime. -/
def invokeAgent (registry : List AgentDefinition) (agentName : String) (fuel : Nat) :
    AgentRunOutcome :=
  let r := invokeInternal registry defaultCallOptions fuel agentName none 0 initRuntimeState
  { result := r.1, trace := r.2.trace, runsEntered := r.2.runsEntered }

/-- Two agents whose run bodies invoke each other, the cycle scenario of the
claims. -/
def agentX : AgentDefinition := { name := "X", allowedCalls := none, run := .call "Y" .ret }
def agentY : AgentDefinition := { name := "Y", allowedCalls := none, run := .call "X" .ret }
def cycleRegistry : List AgentDefinition := [agentX, agentY]

/-- C4 counterexample: in the X↔Y cycle scenario the trace has exactly two
entries — one for Y and one for X — and only one entry for X; the
cycle-rejected second X attempt produces no trace entry, contradicting the
claim that the trace also contains an entry for the rejected attempt. -/
theorem invokeAgent_cycle_trace_counterexample :
    (invokeAgent cycleRegistry "X" 8).trace.map (fun e => e.agentName) = ["Y", "X"] ∧
    ((invokeAgent cycleRegistry "X" 8).trace.filter (fun e => e.agentName == "X")).length = 1 ∧
    (invokeAgent cycleRegistry "X" 8).trace.length = 2 :=
  ⟨rfl, rfl, rfl⟩

/-- C4 (amended): in the X↔Y cycle scenario, `invokeAgent` on X fails with
the agent-cycle error; the trace contains exactly one error entry for Y and
one error entry for X (innermost first), each carrying the cycle message,
and no entry for the guard-rejected second X attempt; the rejected attempt's
run body is never entered (X and Y each enter exactly once). -/
theorem invokeAgent_cycle_trace :
    (invokeAgent cycleRegistry "X" 8).result = .error "Agent cycle detected: X -> Y -> X" ∧
    (invokeAgent cycleRegistry "X" 8).trace.map (fun e => (e.agentName, e.status))
      = [("Y", .error), ("X", .error)] ∧
    (invokeAgent cycleRegistry "X" 8).trace.map (fun e => e.error)
      = [some "Agent cycle detected: X -> Y -> X", some "Agent cycle detected: X -> Y -> X"] ∧
    (invokeAgent cycleRegistry "X" 8).runsEntered = ["X", "Y"] :=
  ⟨rfl, rfl, rfl, rfl⟩

/-- C5: an invocation of a registered agent whose call count has reached
`maxCalls`, whose depth exceeds `maxDepth`, or whose name is already on the
runtime stack fails with the corresponding error before the run body is
entered: the runtime state (including `runsEntered` and the trace) is
returned unchanged. -/
theorem invokeInternal_guard_rejects (registry : List AgentDefinition)
    (opts : AgentCallOptions) (fuel : Nat) (agentName : String) (parentRunId : Option Nat)
    (depth : Nat) (st : RuntimeState) (d : AgentDefinition)
    (hfuel : 0 < fuel)
    (hreg : findAgent registry agentName = some d)
    (hguard : st.callCount ≥ opts.maxCalls ∨ depth > opts.maxDepth ∨ agentName ∈ st.stack) :
    ∃ msg,
      invokeInternal registry opts fuel agentName parentRunId depth st = (.error msg, st) ∧
      (st.callCount ≥ opts.maxCalls → msg = callLimitMsg opts.maxCalls) ∧
      (st.callCount < opts.maxCalls → depth > opts.maxDepth → msg = depthMsg opts.maxDepth) ∧
      (st.callCount < opts.maxCalls → depth ≤ opts.maxDepth → agentName ∈ st.stack →
        msg = cycleMsg st.stack agentName) := by
  obtain ⟨fuel', rfl⟩ : ∃ k, fuel = k + 1 := ⟨fuel - 1, by omega⟩
  unfold invokeInternal
  by_cases hcalls : st.callCount ≥ opts.maxCalls
  · refine ⟨callLimitMsg opts.maxCalls, ?_, fun _ => rfl, ?_, ?_⟩
    · simp [exec, hreg, hcalls]
    · intro h; omega
    · intro h; omega
  · by_cases hdepth : depth > opts.maxDepth
    · refine ⟨depthMsg opts.maxDepth, ?_, fun h => absurd h hcalls, fun _ _ => rfl, ?_⟩
      · simp [exec, hreg, hcalls, hdepth]
      · intro _ h; omega
    · have hstack : agentName ∈ st.stack := by
        rcases hguard with h | h | h
        · exact absurd h hcalls
        · exact absurd h hdepth
        · exact h
      refine ⟨cycleMsg st.stack agentName, ?_, fun h => absurd h hcalls,
        fun _ h => absurd h hdepth, fun _ _ _ => rfl⟩
      simp [exec, hreg, hcalls, hdepth, hstack]

/-- Witness for C5: invoking X while X is already on the stack is rejected
with the cycle error and the state is unchanged. -/
theorem invokeInternal_guard_rejects_example :
    ∃ msg,
      invokeInternal cycleRegistry defaultCallOptions 4 "X" none 1
        { trace := [], stack := ["X"], callCount := 1, nextRunId := 1, runsEntered := ["X"] }
        = (.error msg,
           { trace := [], stack := ["X"], callCount := 1, nextRunId := 1,
             runsEntered := ["X"] }) ∧
      (1 ≥ defaultCallOptions.maxCalls → msg = callLimitMsg defaultCallOptions.maxCalls) ∧
      (1 < defaultCallOptions.maxCalls → 1 > defaultCallOptions.maxDepth →
        msg = depthMsg defaultCallOptions.maxDepth) ∧
      (1 < defaultCallOptions.maxCalls → 1 ≤ defaultCallOptions.maxDepth →
        "X" ∈ ["X"] → msg = cycleMsg ["X"] "X") :=
  invokeInternal_guard_rejects cycleRegistry defaultCallOptions 4 "X" none 1
    { trace := [], stack := ["X"], callCount := 1, nextRunId := 1, runsEntered := ["X"] }
    agentX (by decide) (by decide) (Or.inr (Or.inr (by decide)))

/-!
Section B: Instruction Registry, from `src/server/instructions/registry.ts`
and `src/server/instructions/schema.ts`.

The source delegates pattern matching to the JavaScript `RegExp` engine;
the embedding implements the fragment of that engine the instruction
patterns use: literal characters, `.` (not matching a line break unless
the `s` flag is set) and postfix `*`, with unanchored `test` search and
the `i` (ignore-case) flag. `parseModelMatch`'s own anchored check
`^\/(.+)\/([gimsuy]*)$` is translated directly: a pattern is a delimited
regex when it starts with `/` and its last `/` leaves a non-empty body and
a flags suffix drawn from `gimsuy`; otherwise matching is exact string
equality. File loading and schema validation are outside the claims; the
loader is modelled from the already-parsed instruction sets.
-/

inductive RegexAtom where
  | lit (c : Char)
  | dot
deriving DecidableEq, Repr

inductive RegexPiece where
  | once (a : RegexAtom)
  | star (a : RegexAtom)
deriving DecidableEq, Repr

def regexFlagChars : List Char := ['g', 'i', 'm', 's', 'u', 'y']

def atomMatches (ignoreCase dotAll : Bool) : RegexAtom → Char → Bool
  | .dot, c => dotAll || !(c = '\n' ∨ c = '\r')
  | .lit l, c => if ignoreCase then l.toLower == c.toLower else l == c

/-- Compiles the regex body: `.` is the wildcard, a character followed by
`*` is a starred atom, anything else a literal. -/
def compileRegex : List Char → List RegexPiece
  | [] => []
  | c :: '*' :: rest =>
      .star (if c = '.' then .dot else .lit c) :: compileRegex rest
  | c :: rest =>
      .once (if c = '.' then .dot else .lit c) :: compileRegex rest

/-- Does some prefix of `cs` match the pieces? Fuelled to keep the matcher
structurally recursive; `ps.length + cs.length + 1` fuel always suffices. -/
def matchesHereFuel (ignoreCase dotAll : Bool) :
    Nat → List RegexPiece → List Char → Bool
  | 0, _, _ => false
  | _ + 1, [], _ => true
  | _ + 1, .once _ :: _, [] => false
  | fuel + 1, .once a :: ps, c :: cs =>
      atomMatches ignoreCase dotAll a c && matchesHereFuel ignoreCase dotAll fuel ps cs
  | fuel + 1, .star a :: ps, cs =>
      matchesHereFuel ignoreCase dotAll fuel ps cs ||
        (match cs with
          | [] => false
          | c :: cs' =>
              atomMatches ignoreCase dotAll a c &&
                matchesHereFuel ignoreCase dotAll fuel (.star a :: ps) cs')

def matchesHere (ignoreCase dotAll : Bool) (ps : List RegexPiece) (cs : List Char) : Bool :=
  matchesHereFuel ignoreCase dotAll (ps.length + cs.length + 1) ps cs

/-- Unanchored `RegExp.test`: the pieces match starting at some position. -/
def regexTest (ignoreCase dotAll : Bool) (ps : List RegexPiece) (s : String) : Bool :=
  s.data.tails.any (matchesHere ignoreCase dotAll ps)

/-- Splits at the last `/` whose suffix consists only of `gimsuy` flag
characters, the split the source's greedy `^\/(.+)\/([gimsuy]*)$` selects. -/
def splitLastSlash : List Char → Option (List Char × List Char)
  | [] => none
  | c :: rest =>
      match splitLastSlash rest with
      | some (body, flags) => some (c :: body, flags)
      | none =>
          if c = '/' && rest.all (fun f => regexFlagChars.contains f) then some ([], rest)
          else none

/-- Builds the matcher for a `modelMatch` pattern: a delimited `/body/flags`
pattern becomes a regex test, anything else an exact string comparison. -/
def parseModelMatch (pattern : String) : String → Bool :=
  match pattern.data with
  | '/' :: rest =>
      match splitLastSlash rest with
      | some (body, flags) =>
          if body.isEmpty then fun modelId => modelId == pattern
          else
            let ignoreCase := flags.contains 'i'
            let dotAll := flags.contains 's'
            let ps := compileRegex body
            fun modelId => regexTest ignoreCase dotAll ps modelId
      | none => fun modelId => modelId == pattern
  | _ => fun modelId => modelId == pattern

/-- Parsed instruction-set override document. -/
structure InstructionSet where
  name : String
  modelMatch : String
  priority : Int
  instructions : List (String × String)
deriving DecidableEq, Repr

structure ParsedOverride where
  name : String
  priority : Int
  modelMatch : String
  instructions : List (String × String)
deriving DecidableEq, Repr

def overrideMatches (o : ParsedOverride) (modelId : String) : Bool :=
  parseModelMatch o.modelMatch modelId

def lookupKey (kvs : List (String × String)) (key : String) : Option String :=
  (kvs.find? (fun kv => kv.1 == key)).map (fun kv => kv.2)

def toParsedOverride (s : InstructionSet) : ParsedOverride :=
  { name := s.name, priority := s.priority, modelMatch := s.modelMatch,
    instructions := s.instructions }

/-- Stable insertion by ascending priority, matching the stable
`parsed.sort((a, b) => a.priority - b.priority)`. -/
def insertByPriority (o : ParsedOverride) : List ParsedOverride → List ParsedOverride
  | [] => [o]
  | x :: xs => if o.priority ≤ x.priority then o :: x :: xs else x :: insertByPriority o xs

def sortByPriority : List ParsedOverride → List ParsedOverride
  | [] => []
  | x :: xs => insertByPriority x (sortByPriority xs)

/-- Loads overrides from parsed instruction sets, sorted by ascending
priority, from `loadOverridesSync`. -/
def loadOverrides (sets : List InstructionSet) : List ParsedOverride :=
  sortByPriority (sets.map toParsedOverride)

/-- The `for` loop of `resolve`: first override that matches the model id
and defines the key wins. -/
def scanOverrides : List ParsedOverride → String → String → Option String
  | [], _, _ => none
  | o :: rest, key, modelId =>
      if overrideMatches o modelId then
        match lookupKey o.instructions key with
        | some text => some text
        | none => scanOverrides rest key modelId
      else scanOverrides rest key modelId

structure InstructionRegistryState where
  defaults : List (String × String)
  overrides : List ParsedOverride
deriving DecidableEq, Repr

def unknownInstructionMsg (key : String) : String :=
  "Instruction key \"" ++ key ++ "\" not registered"

/-- Resolves an instruction key against overrides then defaults, from
`InstructionRegistry.resolve`. -/
def resolve (st : InstructionRegistryState) (key : String) (modelId : Option String) :
    Except String String :=
  let fromOverrides : Option String :=
    match modelId with
    | some mid => scanOverrides st.overrides key mid
    | none => none
  match fromOverrides with
  | some text => .ok text
  | none =>
      match lookupKey st.defaults key with
      | some text => .ok text
      | none => .error (unknownInstructionMsg key)

/-- Spec-side: the first override in scan order that matches the model id
and defines the key. -/
def firstDefiningOverride (ovs : List ParsedOverride) (key modelId : String) :
    Option ParsedOverride :=
  ovs.find? (fun o => overrideMatches o modelId && (lookupKey o.instructions key).isSome)

/-- Ascending-priority ordering of an override list. -/
def PrioritySorted (ovs : List ParsedOverride) : Prop :=
  List.Pairwise (fun a b => a.priority ≤ b.priority) ovs

theorem insertByPriority_sorted (o : ParsedOverride) (ovs : List ParsedOverride)
    (h : PrioritySorted ovs) : PrioritySorted (insertByPriority o ovs) := by
  induction ovs with
  | nil => simp [insertByPriority, PrioritySorted]
  | cons x xs ih =>
      unfold PrioritySorted at h
      rcases List.pairwise_cons.mp h with ⟨hx, hxs⟩
      by_cases hle : o.priority ≤ x.priority
      · unfold PrioritySorted
        simp only [insertByPriority, if_pos hle]
        refine List.pairwise_cons.mpr ⟨?_, h⟩
        intro b hb
        rcases List.mem_cons.mp hb with rfl | hb
        · exact hle
        · exact le_trans hle (hx b hb)
      · unfold PrioritySorted
        simp only [insertByPriority, if_neg hle]
        refine List.pairwise_cons.mpr ⟨?_, ih hxs⟩
        intro b hb
        have hmem : b = o ∨ b ∈ xs := by
          have : ∀ ys : List ParsedOverride, ∀ c, c ∈ insertByPriority o ys → c = o ∨ c ∈ ys := by
            intro ys
            induction ys with
            | nil => intro c hc; simp [insertByPriority] at hc; exact Or.inl hc
            | cons y ys ihy =>
                intro c hc
                by_cases hoy : o.priority ≤ y.priority
                · simp only [insertByPriority, if_pos hoy] at hc
                  rcases List.mem_cons.mp hc with rfl | hc
                  · exact Or.inl rfl
                  · exact Or.inr hc
                · simp only [insertByPriority, if_neg hoy] at hc
                  rcases List.mem_cons.mp hc with rfl | hc
                  · exact Or.inr (List.mem_cons_self _ _)
                  · rcases ihy c hc with h' | h'
                    · exact Or.inl h'
                    · exact Or.inr (List.mem_cons_of_mem _ h')
          exact this xs b hb
        rcases hmem with rfl | hb'
        · omega
        · exact hx b hb'

theorem sortByPriority_sorted (ovs : List ParsedOverride) :
    PrioritySorted (sortByPriority ovs) := by
  induction ovs with
  | nil => simp [sortByPriority, PrioritySorted]
  | cons x xs ih => exact insertByPriority_sorted x (sortByPriority xs) ih

theorem scanOverrides_firstDefining (ovs : List ParsedOverride) (key modelId : String) :
    scanOverrides ovs key modelId
      = (firstDefiningOverride ovs key modelId).bind (fun o => lookupKey o.instructions key) := by
  induction ovs with
  | nil => simp [scanOverrides, firstDefiningOverride]
  | cons o rest ih =>
      by_cases hm : overrideMatches o modelId
      · rcases hk : lookupKey o.instructions key with _ | text
        · simp [scanOverrides, firstDefiningOverride, hm, hk, ih, List.find?_cons]
        · simp [scanOverrides, firstDefiningOverride, hm, hk, List.find?_cons]
      · simp [scanOverrides, firstDefiningOverride, hm, ih, List.find?_cons]

/-- C6: `resolve` scans the loaded overrides in ascending priority order
(the loader sorts them so), returns the text of the first override whose
`modelMatch` matches the model id and whose instructions define the key,
otherwise the registered default, and fails with the unknown-instruction
error when no default exists; and the delimited pattern `/foo-.*/i` is
treated as an ignore-case regex matching both `foo-x` and `FOO-Y`. -/
theorem resolve_contract (sets : List InstructionSet) (st : InstructionRegistryState)
    (key modelId text : String) :
    PrioritySorted (loadOverrides sets) ∧
    (scanOverrides st.overrides key modelId
      = (firstDefiningOverride st.overrides key modelId).bind
          (fun o => lookupKey o.instructions key)) ∧
    (scanOverrides st.overrides key modelId = some text →
      resolve st key (some modelId) = .ok text) ∧
    (scanOverrides st.overrides key modelId = none →
      lookupKey st.defaults key = some text → resolve st key (some modelId) = .ok text) ∧
    (scanOverrides st.overrides key modelId = none →
      lookupKey st.defaults key = none →
      resolve st key (some modelId) = .error (unknownInstructionMsg key)) ∧
    parseModelMatch "/foo-.*/i" "foo-x" = true ∧
    parseModelMatch "/foo-.*/i" "FOO-Y" = true := by
  refine ⟨sortByPriority_sorted _, scanOverrides_firstDefining _ _ _, ?_, ?_, ?_, ?_, ?_⟩
  · intro h
    simp [resolve, h]
  · intro h hd
    simp [resolve, h, hd]
  · intro h hd
    simp [resolve, h, hd]
  · decide
  · decide

/-- Overrides and defaults used in the C6 witness. -/
def exampleRegistry : InstructionRegistryState :=
  { defaults := [("style", "default style")]
    overrides :=
      [{ name := "set-a", priority := 10, modelMatch := "/foo-.*/i",
         instructions := [("style", "override style")] },
       { name := "set-b", priority := 20, modelMatch := "bar",
         instructions := [("style", "bar style")] }] }

/-- Witness for C6: on a concrete registry the regex override wins for a
matching model id, and the delimited ignore-case pattern matches both
casings. -/
theorem resolve_contract_example :
    resolve exampleRegistry "style" (some "FOO-Y") = .ok "override style" ∧
    parseModelMatch "/foo-.*/i" "foo-x" = true ∧
    parseModelMatch "/foo-.*/i" "FOO-Y" = true :=
  ⟨(resolve_contract [] exampleRegistry "style" "FOO-Y" "override style").2.2.1 (by decide),
    (resolve_contract [] exampleRegistry "style" "FOO-Y" "override style").2.2.2.2.2.1,
    (resolve_contract [] exampleRegistry "style" "FOO-Y" "override style").2.2.2.2.2.2⟩

/-!
Section I (streams): Analysis Buffer, from
`src/server/librarian/analysis-stream.ts`.

The buffer and its subscriber streams are modelled as a state machine over
interleavings of operations: `push` (`pushEvent`), `finish`
(`finishBuffer`), and `pull i` (one drain pass of subscriber `i`'s
`ReadableStream.pull`: emit every buffered event past the cursor, then
close when the buffer is done — the handler's wait-on-waiters suspension
corresponds to the next `pull` of the same subscriber in the trace).
Subscribers start with cursor 0, so attach time is immaterial: the first
pull replays from the start. Well-formed traces push no event after the
buffer is finished, matching the buffer lifecycle (events are pushed by
the running analysis, which finishes the buffer when it completes).
-/

inductive AnalysisStreamEvent where
  | text (text : String)
  | reasoning (text : String)
  | toolCall (id toolName args : String)
  | toolResult (id toolName result : String)
  | finish (finishReason : String) (stepCount : Nat)
  | error (error : String)
deriving DecidableEq, Repr

structure SubscriberState where
  cursor : Nat
  closed : Bool
  emitted : List AnalysisStreamEvent
deriving DecidableEq, Repr

def initSubscriber : SubscriberState := { cursor := 0, closed := false, emitted := [] }

structure AnalysisBufferState where
  events : List AnalysisStreamEvent
  done : Bool
  error : Option String
  subs : List SubscriberState
deriving DecidableEq, Repr

/-- A fresh buffer observed by `nsubs` subscriber streams. -/
def initAnalysisBuffer (nsubs : Nat) : AnalysisBufferState :=
  { events := [], done := false, error := none, subs := List.replicate nsubs initSubscriber }

inductive BufferOp where
  | push (e : AnalysisStreamEvent)
  | finish (error : Option String)
  | pull (i : Nat)
deriving DecidableEq, Repr

/-- Appends one event, from `pushEvent` (waking waiters is represented by
subsequent `pull` steps in the trace). -/
def pushEvent (st : AnalysisBufferState) (e : AnalysisStreamEvent) : AnalysisBufferState :=
  { st with events := st.events ++ [e] }

/-- Marks the buffer done, from `finishBuffer`. -/
def finishBuffer (st : AnalysisBufferState) (err : Option String) : AnalysisBufferState :=
  { st with done := true, error := match err with | some m => some m | none => st.error }

/-- One drain pass of a subscriber's `pull` handler: emit all events past
the cursor, then close if the buffer is done. -/
def pullStep (st : AnalysisBufferState) (sub : SubscriberState) : SubscriberState :=
  if sub.closed then sub
  else
    { cursor := st.events.length
      closed := st.done
      emitted := sub.emitted ++ st.events.drop sub.cursor }

def modifySub (subs : List SubscriberState) (i : Nat) (f : SubscriberState → SubscriberState) :
    List SubscriberState :=
  match subs, i with
  | [], _ => []
  | s :: rest, 0 => f s :: rest
  | s :: rest, j + 1 => s :: modifySub rest j f

def applyBufferOp (st : AnalysisBufferState) : BufferOp → AnalysisBufferState
  | .push e => pushEvent st e
  | .finish err => finishBuffer st err
  | .pull i => { st with subs := modifySub st.subs i (pullStep st) }

def runBufferOps (nsubs : Nat) (ops : List BufferOp) : AnalysisBufferState :=
  ops.foldl applyBufferOp (initAnalysisBuffer nsubs)

def BufferOp.isPush : BufferOp → Bool
  | .push _ => true
  | _ => false

/-- Well-formed interleavings: no event is pushed after the buffer has been
finished. -/
def noPushAfterFinish : List BufferOp → Bool
  | [] => true
  | .finish _ :: rest => rest.all (fun op => !op.isPush)
  | _ :: rest => noPushAfterFinish rest

/-- Invariant tying a subscriber to the buffer: what it has emitted is
exactly the event prefix below its cursor, and a closed subscriber has
drained everything and seen the buffer done. -/
def SubInv (st : AnalysisBufferState) (sub : SubscriberState) : Prop :=
  sub.emitted = st.events.take sub.cursor ∧
  sub.cursor ≤ st.events.length ∧
  (sub.closed = true → sub.cursor = st.events.length ∧ st.done = true)

def BufferInv (st : AnalysisBufferState) : Prop :=
  ∀ sub ∈ st.subs, SubInv st sub

theorem allNotPush_noPushAfterFinish (ops : List BufferOp)
    (h : ops.all (fun op => !op.isPush) = true) : noPushAfterFinish ops = true := by
  induction ops with
  | nil => rfl
  | cons op rest ih =>
      simp only [List.all_cons, Bool.and_eq_true] at h
      obtain ⟨_, hrest⟩ := h
      cases op with
      | push e => simp [BufferOp.isPush] at *
      | finish err => simpa [noPushAfterFinish] using hrest
      | pull i => simpa [noPushAfterFinish] using ih hrest

theorem modifySub_mem (subs : List SubscriberState) (i : Nat)
    (f : SubscriberState → SubscriberState) :
    ∀ x ∈ modifySub subs i f, x ∈ subs ∨ ∃ y ∈ subs, x = f y := by
  induction subs generalizing i with
  | nil => intro x hx; simp [modifySub] at hx
  | cons s rest ih =>
      intro x hx
      cases i with
      | zero =>
          rcases List.mem_cons.mp hx with rfl | hx
          · exact Or.inr ⟨s, List.mem_cons_self _ _, rfl⟩
          · exact Or.inl (List.mem_cons_of_mem _ hx)
      | succ j =>
          rcases List.mem_cons.mp hx with rfl | hx
          · exact Or.inl (List.mem_cons_self _ _)
          · rcases ih j x hx with h | ⟨y, hy, rfl⟩
            · exact Or.inl (List.mem_cons_of_mem _ h)
            · exact Or.inr ⟨y, List.mem_cons_of_mem _ hy, rfl⟩

theorem bufferInv_step (st : AnalysisBufferState) (op : BufferOp)
    (hinv : BufferInv st)
    (hpush : op.isPush = true → st.done = false) :
    BufferInv (applyBufferOp st op) := by
  cases op with
  | push e =>
      have hdone : st.done = false := hpush rfl
      intro sub hsub
      obtain ⟨hemit, hcur, hclosed⟩ := hinv sub hsub
      refine ⟨?_, ?_, ?_⟩
      · simpa [applyBufferOp, pushEvent, List.take_append_of_le_length hcur] using hemit
      · simp [applyBufferOp, pushEvent]
        omega
      · intro hc
        rcases hclosed hc with ⟨_, hd⟩
        rw [hdone] at hd
        cases hd
  | finish err =>
      intro sub hsub
      obtain ⟨hemit, hcur, hclosed⟩ := hinv sub hsub
      refine ⟨?_, ?_, ?_⟩
      · simpa [applyBufferOp, finishBuffer] using hemit
      · simpa [applyBufferOp, finishBuffer] using hcur
      · intro hc
        exact ⟨by simpa [applyBufferOp, finishBuffer] using (hclosed hc).1,
          by simp [applyBufferOp, finishBuffer]⟩
  | pull i =>
      intro sub hsub
      simp only [applyBufferOp] at hsub
      rcases modifySub_mem st.subs i (pullStep st) sub hsub with hmem | ⟨y, hy, rfl⟩
      · obtain ⟨hemit, hcur, hclosed⟩ := hinv sub hmem
        exact ⟨hemit, hcur, hclosed⟩
      · obtain ⟨hemit, hcur, hclosed⟩ := hinv y hy
        by_cases hc : y.closed = true
        · obtain ⟨h1, h2⟩ := hclosed hc
          simp only [pullStep, hc, if_pos]
          exact ⟨hemit, hcur, fun h => ⟨h1, h2⟩⟩
        · simp only [pullStep, hc]
          refine ⟨?_, ?_, ?_⟩
          · simp [applyBufferOp, hemit, List.take_append_drop, List.take_length]
          · simp [applyBufferOp]
          · intro h
            simp only [Bool.not_eq_true] at hc
            simp [hc] at h
            exact ⟨rfl, h⟩

theorem runBufferOps_inv (ops : List BufferOp) :
    ∀ st : AnalysisBufferState, BufferInv st →
      (st.done = true → ops.all (fun op => !op.isPush) = true) →
      noPushAfterFinish ops = true →
      BufferInv (ops.foldl applyBufferOp st) := by
  induction ops with
  | nil => intro st hinv _ _; simpa using hinv
  | cons op rest ih =>
      intro st hinv hdone hwf
      simp only [List.foldl_cons]
      have hstep : BufferInv (applyBufferOp st op) := by
        refine bufferInv_step st op hinv ?_
        intro hp
        by_contra hne
        simp only [Bool.not_eq_false] at hne
        have hall := hdone hne
        simp only [List.all_cons, Bool.and_eq_true] at hall
        rw [hp] at hall
        simpa using hall.1
      refine ih (applyBufferOp st op) hstep ?_ ?_
      · intro hdone'
        cases op with
        | push e =>
            have hd : st.done = true := by simpa [applyBufferOp, pushEvent] using hdone'
            have hall := hdone hd
            simp only [List.all_cons, Bool.and_eq_true] at hall
            exact hall.2
        | finish err =>
            simpa [noPushAfterFinish] using hwf
        | pull i =>
            have hd : st.done = true := by simpa [applyBufferOp] using hdone'
            have hall := hdone hd
            simp only [List.all_cons, Bool.and_eq_true] at hall
            exact hall.2
      · cases op with
        | push e => simpa [noPushAfterFinish] using hwf
        | finish err =>
            exact allNotPush_noPushAfterFinish rest (by simpa [noPushAfterFinish] using hwf)
        | pull i => simpa [noPushAfterFinish] using hwf

/-- C7: over any well-formed interleaving (no push after finish), any two
subscriber streams that have read to completion (their streams closed) have
each emitted exactly the buffer's events in append order, hence identical
sequences, regardless of where their pulls fall in the interleaving. -/
theorem analysis_subscribers_agree (nsubs : Nat) (ops : List BufferOp)
    (sa sb : SubscriberState)
    (hwf : noPushAfterFinish ops = true)
    (ha : sa ∈ (runBufferOps nsubs ops).subs)
    (hb : sb ∈ (runBufferOps nsubs ops).subs)
    (hca : sa.closed = true) (hcb : sb.closed = true) :
    sa.emitted = (runBufferOps nsubs ops).events ∧
    sb.emitted = (runBufferOps nsubs ops).events ∧
    sa.emitted = sb.emitted := by
  have hinit : BufferInv (initAnalysisBuffer nsubs) := by
    intro sub hsub
    have : sub = initSubscriber := List.eq_of_mem_replicate hsub
    subst this
    exact ⟨rfl, by simp [initAnalysisBuffer, initSubscriber], by simp [initSubscriber]⟩
  have hinv : BufferInv (runBufferOps nsubs ops) :=
    runBufferOps_inv ops (initAnalysisBuffer nsubs) hinit
      (by intro h; simp [initAnalysisBuffer] at h) hwf
  obtain ⟨hea, hca'⟩ := And.intro (hinv sa ha).1 ((hinv sa ha).2.2 hca).1
  obtain ⟨heb, hcb'⟩ := And.intro (hinv sb hb).1 ((hinv sb hb).2.2 hcb).1
  have ha' : sa.emitted = (runBufferOps nsubs ops).events := by
    rw [hea, hca', List.take_length]
  have hb' : sb.emitted = (runBufferOps nsubs ops).events := by
    rw [heb, hcb', List.take_length]
  exact ⟨ha', hb', ha'.trans hb'.symm⟩

/-- Interleaving used in the C7 witness: subscriber 0 attaches and drains
early, an event arrives, the analysis finishes, then both subscribers drain
to completion at different times. -/
def exampleBufferOps : List BufferOp :=
  [.push (.text "a"), .pull 0, .push (.text "b"), .finish none, .pull 0, .pull 1]

/-- Witness for C7: both subscribers of the concrete interleaving close and
emit the same sequence, the buffer's events in order. -/
theorem analysis_subscribers_agree_example :
    ({ cursor := 2, closed := true, emitted := [.text "a", .text "b"] } : SubscriberState).emitted
      = (runBufferOps 2 exampleBufferOps).events ∧
    ({ cursor := 2, closed := true, emitted := [.text "a", .text "b"] } : SubscriberState).emitted
      = (runBufferOps 2 exampleBufferOps).events ∧
    ({ cursor := 2, closed := true, emitted := [.text "a", .text "b"] } : SubscriberState).emitted
      = ({ cursor := 2, closed := true, emitted := [.text "a", .text "b"] } : SubscriberState).emitted :=
  analysis_subscribers_agree 2 exampleBufferOps
    { cursor := 2, closed := true, emitted := [.text "a", .text "b"] }
    { cursor := 2, closed := true, emitted := [.text "a", .text "b"] }
    (by decide) (by decide) (by decide) (by decide) (by decide)

/-!
Section I (scheduler): Librarian Scheduler, from
`src/server/librarian/scheduler.ts`.

Timers are modelled with virtual time for one story: the trigger history
is a time-ordered list of `(now, fragmentId)` calls to `triggerLibrarian`,
and the semantics replays it against the single pending timer —
`triggerLibrarian` clears any pending timer (`clearTimeout`) and arms a
new one at `now + DEBOUNCE_MS`, and an armed timer fires (starting one
analyzer run with the remembered fragment) when its due time arrives
before the next trigger.
-/

def DEBOUNCE_MS : Nat := 2000

structure PendingTimer where
  fireAt : Nat
  fragmentId : String
deriving DecidableEq, Repr

/-- Replays a time-ordered trigger history against the pending timer,
collecting the analyzer runs that actually start as `(startTime,
fragmentId)` pairs. -/
def runSchedule : Option PendingTimer → List (Nat × String) → List (Nat × String)
  | none, [] => []
  | some t, [] => [(t.fireAt, t.fragmentId)]
  | none, (now, frag) :: rest =>
      runSchedule (some { fireAt := now + DEBOUNCE_MS, fragmentId := frag }) rest
  | some t, (now, frag) :: rest =>
      if t.fireAt ≤ now then
        (t.fireAt, t.fragmentId) ::
          runSchedule (some { fireAt := now + DEBOUNCE_MS, fragmentId := frag }) rest
      else
        runSchedule (some { fireAt := now + DEBOUNCE_MS, fragmentId := frag }) rest

/-- Analyzer runs started by a trigger history, from `triggerLibrarian`. -/
def librarianRuns (triggers : List (Nat × String)) : List (Nat × String) :=
  runSchedule none triggers

/-- C8: a second `triggerLibrarian` before the debounce interval elapses
cancels the first trigger's pending timer, so exactly one analyzer run
starts, `DEBOUNCE_MS` (2000 ms) after the second trigger, using the second
trigger's fragment. -/
theorem triggerLibrarian_debounce (t1 t2 : Nat) (f1 f2 : String)
    (h : t2 < t1 + DEBOUNCE_MS) :
    DEBOUNCE_MS = 2000 ∧
    librarianRuns [(t1, f1), (t2, f2)] = [(t2 + DEBOUNCE_MS, f2)] := by
  refine ⟨rfl, ?_⟩
  have hlt : ¬ (t1 + DEBOUNCE_MS ≤ t2) := by omega
  simp [librarianRuns, runSchedule, hlt]

/-- Witness for C8: a second trigger 500 ms after the first yields one run
at 2500 with the second fragment. -/
theorem triggerLibrarian_debounce_example :
    DEBOUNCE_MS = 2000 ∧
    librarianRuns [(0, "pr-f1"), (500, "pr-f2")] = [(500 + DEBOUNCE_MS, "pr-f2")] :=
  triggerLibrarian_debounce 0 500 "pr-f1" "pr-f2" (by decide)

/-!
Section H (logs): Generation Logs, from `src/server/llm/generation-logs.ts`.

The log directory is modelled as the stored full logs plus the summary
index list; `saveGenerationLog` writes the log file and prepends its
summary to the index (`appendToIndex` unshifts, skipping ids already
present). JSON payloads inside a log (message contents, tool arguments and
results) are opaque strings.
-/

structure ToolCallLog where
  toolName : String
  args : String
  result : String
deriving DecidableEq, Repr

structure GenerationLog where
  id : String
  createdAt : String
  input : String
  messages : List (String × String)
  toolCalls : List ToolCallLog
  generatedText : String
  fragmentId : Option String
  model : String
  durationMs : Nat
  stepCount : Nat
  finishReason : String
  stepsExceeded : Bool
deriving DecidableEq, Repr

structure GenerationLogSummary where
  id : String
  createdAt : String
  input : String
  fragmentId : Option String
  model : String
  durationMs : Nat
  toolCallCount : Nat
  stepCount : Nat
  stepsExceeded : Bool
deriving DecidableEq, Repr

def toSummary (log : GenerationLog) : GenerationLogSummary :=
  { id := log.id
    createdAt := log.createdAt
    input := log.input
    fragmentId := log.fragmentId
    model := log.model
    durationMs := log.durationMs
    toolCallCount := log.toolCalls.length
    stepCount := log.stepCount
    stepsExceeded := log.stepsExceeded }

/-- Prepends the summary to the index unless its id is already present. -/
def appendToIndex (index : List GenerationLogSummary) (summary : GenerationLogSummary) :
    List GenerationLogSummary :=
  if index.any (fun s => s.id == summary.id) then index else summary :: index

structure LogStore where
  logs : List (String × GenerationLog)
  index : List GenerationLogSummary
deriving DecidableEq, Repr

/-- Persists a log and updates the summary index, from `saveGenerationLog`. -/
def saveGenerationLog (st : LogStore) (log : GenerationLog) : LogStore :=
  { logs := (log.id, log) :: st.logs.filter (fun kv => !(kv.1 == log.id))
    index := appendToIndex st.index (toSummary log) }

/-- Returns the summary index, from `listGenerationLogs`. -/
def listGenerationLogs (st : LogStore) : List GenerationLogSummary :=
  st.index

/-- Newest-first ordering of the summary index by `createdAt`. -/
def CreatedAtDescending (index : List GenerationLogSummary) : Prop :=
  List.Pairwise (fun a b => b.createdAt ≤ a.createdAt) index

/-- C9: after `saveGenerationLog` persists a log whose id is new and whose
`createdAt` is at least every indexed entry's (as for a log created at save
time), `listGenerationLogs` returns the saved log's id first and the list
stays ordered by `createdAt` descending. -/
theorem saveGenerationLog_lists_first (st : LogStore) (log : GenerationLog)
    (hfresh : ∀ s ∈ st.index, s.id ≠ log.id)
    (hsorted : CreatedAtDescending st.index)
    (hnewest : ∀ s ∈ st.index, s.createdAt ≤ log.createdAt) :
    (listGenerationLogs (saveGenerationLog st log)).head?.map (fun s => s.id)
      = some log.id ∧
    CreatedAtDescending (listGenerationLogs (saveGenerationLog st log)) := by
  have hany : st.index.any (fun s => s.id == (toSummary log).id) = false := by
    rw [List.any_eq_false]
    intro s hs
    simpa [toSummary] using hfresh s hs
  constructor
  · simp only [listGenerationLogs, saveGenerationLog, appendToIndex, hany, Bool.false_eq_true,
      if_false]
    simp [toSummary]
  · simp only [listGenerationLogs, saveGenerationLog, appendToIndex, hany, Bool.false_eq_true,
      if_false]
    exact List.pairwise_cons.mpr ⟨fun s hs => by simpa [toSummary] using hnewest s hs, hsorted⟩

/-- Log used in the C9 witness. -/
def exampleLog : GenerationLog :=
  { id := "lg-new"
    createdAt := "2024-06-01T00:00:00Z"
    input := "continue"
    messages := []
    toolCalls := []
    generatedText := "prose"
    fragmentId := none
    model := "deepseek-chat"
    durationMs := 1200
    stepCount := 1
    finishReason := "stop"
    stepsExceeded := false }

/-- Index entry already present in the C9 witness store. -/
def exampleOldSummary : GenerationLogSummary :=
  { id := "lg-old"
    createdAt := "2024-06-01T00:00:00Z"
    input := "start"
    fragmentId := none
    model := "deepseek-chat"
    durationMs := 900
    toolCallCount := 0
    stepCount := 1
    stepsExceeded := false }

/-- Witness for C9: saving a fresh newest log lists it first, still sorted. -/
theorem saveGenerationLog_lists_first_example :
    (listGenerationLogs (saveGenerationLog
        { logs := [("lg-old", exampleLog)], index := [exampleOldSummary] }
        exampleLog)).head?.map (fun s => s.id) = some exampleLog.id ∧
    CreatedAtDescending (listGenerationLogs (saveGenerationLog
        { logs := [("lg-old", exampleLog)], index := [exampleOldSummary] }
        exampleLog)) :=
  saveGenerationLog_lists_first
    { logs := [("lg-old", exampleLog)], index := [exampleOldSummary] } exampleLog
    (by decide)
    (by simp [CreatedAtDescending])
    (fun s hs => by
      simp only [List.mem_singleton] at hs
      subst hs
      exact le_refl _)

end Errata
